import Mathlib

/-!
# Verification of the employee-directory program (`src/main.py`)

Shallow embedding of the Python classes `Employee`, `Manager`, `SalesPerson`
and `Company`, together with proofs of the behavioural properties stated in
the specification.

Modelling conventions:
* The three entity classes become one inductive type `Entity` with a
  constructor per class; dynamic dispatch becomes pattern matching.
* Python numbers (salaries, raise amounts, commission rates) are modelled
  as exact rationals `ℚ`.
* Python object equality (`==` on objects without `__eq__`, used by
  `in` and `list.remove`) is modelled by structural equality `Entity.beq`.
* `print` calls only write to stdout and mutate nothing; they are dropped
  from the embedding.
* The `isinstance(employee, Employee)` guards in the `add_employee`
  methods are represented by the parameter type `Entity` itself: every
  value of the embedding satisfies the check, so the "else" branch of the
  Python code is unreachable in the model.
-/

namespace PyOOP

/-- The three classes of the program.  `Entity.employee` is class
`Employee` (fields `__employee_id`, `name`, `salary`), `Entity.manager`
is class `Manager` (extra fields `department` and the direct-report list
`employees`), `Entity.salesperson` is class `SalesPerson` (extra fields
`commission_rate`, `sales_achieved`). -/
inductive Entity : Type where
  | employee (employee_id : Int) (name : String) (salary : ℚ)
  | manager (employee_id : Int) (name : String) (salary : ℚ)
      (department : String) (employees : List Entity)
  | salesperson (employee_id : Int) (name : String) (salary : ℚ)
      (commission_rate : ℚ) (sales_achieved : ℚ)

/-- `Employee.get_employee_id`: returns the private `__employee_id`
attribute, set at construction (all classes inherit it unchanged). -/
def Entity.get_employee_id : Entity → Int
  | .employee i _ _ => i
  | .manager i _ _ _ _ => i
  | .salesperson i _ _ _ _ => i

/-- The `salary` attribute (shared by all classes). -/
def Entity.salary : Entity → ℚ
  | .employee _ _ s => s
  | .manager _ _ s _ _ => s
  | .salesperson _ _ s _ _ => s

/-- The `name` attribute (shared by all classes). -/
def Entity.nameOf : Entity → String
  | .employee _ n _ => n
  | .manager _ n _ _ _ => n
  | .salesperson _ n _ _ _ => n

/-- The `commission_rate` attribute: present only on `SalesPerson`. -/
def Entity.commission_rate : Entity → Option ℚ
  | .salesperson _ _ _ cr _ => some cr
  | _ => none

/-- `Employee.__init__(employee_id, name, salary)`. -/
def Employee.init (employee_id : Int) (name : String) (salary : ℚ) : Entity :=
  .employee employee_id name salary

/-- `Manager.__init__(employee_id, name, salary, department)`:
calls the base constructor and sets `self.employees = []`. -/
def Manager.init (employee_id : Int) (name : String) (salary : ℚ)
    (department : String) : Entity :=
  .manager employee_id name salary department []

/-- `SalesPerson.__init__(employee_id, name, salary, commission_rate)`:
calls the base constructor and sets `self.sales_achieved = 0`. -/
def SalesPerson.init (employee_id : Int) (name : String) (salary : ℚ)
    (commission_rate : ℚ) : Entity :=
  .salesperson employee_id name salary commission_rate 0

/-- The dynamically dispatched single-argument call `x.give_raise(amount)`:
* `Employee.give_raise`: if `amount > 0` then `salary += amount`, else no
  mutation (only an "invalid" message).
* `Manager.give_raise(amount)` with `include_reports` left at its default
  `False`: just the base behaviour.
* `SalesPerson.give_raise`: base behaviour, then unconditionally
  `commission_rate += 0.01`. -/
def Entity.give_raise (e : Entity) (amount : ℚ) : Entity :=
  match e with
  | .employee i n s =>
      if amount > 0 then .employee i n (s + amount) else .employee i n s
  | .manager i n s d reps =>
      if amount > 0 then .manager i n (s + amount) d reps
      else .manager i n s d reps
  | .salesperson i n s cr sa =>
      .salesperson i n (if amount > 0 then s + amount else s) (cr + 0.01) sa

/-- `Manager.give_raise(amount, include_reports)`: gives the base raise to
the manager itself, then, if `include_reports`, calls
`employee.give_raise(amount)` on every entry of the report list (each
report's own override applies).  On a non-`manager` value the method does
not exist; the fallback base behaviour keeps the function total. -/
def Manager.give_raise (e : Entity) (amount : ℚ) (include_reports : Bool) :
    Entity :=
  match e with
  | .manager i n s d reps =>
      .manager i n (if amount > 0 then s + amount else s) d
        (if include_reports then reps.map (fun r => r.give_raise amount)
         else reps)
  | other => other.give_raise amount

mutual

/-- Structural equality of entities, modelling Python object identity as
used by `in` and `list.remove` (two objects are `==` exactly when they are
the same object; in the value model, when all their fields agree). -/
def Entity.beq : Entity → Entity → Bool
  | .employee i n s, .employee i' n' s' =>
      i == i' && n == n' && s == s'
  | .manager i n s d l, .manager i' n' s' d' l' =>
      i == i' && n == n' && s == s' && d == d' && Entity.beqList l l'
  | .salesperson i n s c a, .salesperson i' n' s' c' a' =>
      i == i' && n == n' && s == s' && c == c' && a == a'
  | _, _ => false

/-- Pointwise `Entity.beq` on lists (for the report-list field). -/
def Entity.beqList : List Entity → List Entity → Bool
  | [], [] => true
  | x :: xs, y :: ys => Entity.beq x y && Entity.beqList xs ys
  | _, _ => false

end

/-- Python `employee in lst` (membership by `==`). -/
def memB (l : List Entity) (e : Entity) : Bool :=
  l.any (fun x => Entity.beq x e)

/-- Python `lst.remove(employee)`: removes the first entry equal to
`employee`; on absence the callers guard with `in`, so the identity
result of the no-match case is never observed. -/
def removeFirst : List Entity → Entity → List Entity
  | [], _ => []
  | x :: xs, e => if Entity.beq x e then xs else x :: removeFirst xs e

/-- Number of entries of `l` equal (by `==`) to `e`. -/
def countB (l : List Entity) (e : Entity) : Nat :=
  (l.filter (fun x => Entity.beq x e)).length

/-- `Manager.add_employee(employee)`: if `isinstance(employee, Employee)`
(always true in the typed model) append to the direct-report list; no
membership or duplicate check.  Not a manager: method absent, value kept. -/
def Manager.add_employee (m : Entity) (employee : Entity) : Entity :=
  match m with
  | .manager i n s d reps => .manager i n s d (reps ++ [employee])
  | other => other

/-- `Manager.remove_employee(employee)`: if `employee in self.employees`
remove the first `==`-equal entry, else only print a message (no-op). -/
def Manager.remove_employee (m : Entity) (employee : Entity) : Entity :=
  match m with
  | .manager i n s d reps =>
      if memB reps employee then .manager i n s d (removeFirst reps employee)
      else .manager i n s d reps
  | other => other

/-- `SalesPerson.calculate_commission()`: `commission_rate * sales_achieved`,
computed on demand.  Absent on the other classes. -/
def SalesPerson.calculate_commission (e : Entity) : Option ℚ :=
  match e with
  | .salesperson _ _ _ cr sa => some (cr * sa)
  | _ => none

/-- Class `Company`: a name and the list `employees`. -/
structure Company : Type where
  name : String
  employees : List Entity

/-- `Company.__init__(name)`: starts with an empty employee list. -/
def Company.init (name : String) : Company :=
  ⟨name, []⟩

/-- `Company.add_employee(employee)`: `isinstance` check (always true in
the typed model), then append; no membership or duplicate check. -/
def Company.add_employee (c : Company) (employee : Entity) : Company :=
  { c with employees := c.employees ++ [employee] }

/-- `Company.remove_employee(employee)`: if present remove the first
`==`-equal entry, else only print a message (no-op). -/
def Company.remove_employee (c : Company) (employee : Entity) : Company :=
  if memB c.employees employee then
    { c with employees := removeFirst c.employees employee }
  else c

/-- The loop of `Company.get_employee_by_id`: scan the list in order and
return the first entity whose `get_employee_id()` equals `employee_id`. -/
def findById : List Entity → Int → Option Entity
  | [], _ => none
  | e :: rest, employee_id =>
      if e.get_employee_id = employee_id then some e else findById rest employee_id

/-- `Company.get_employee_by_id(employee_id)`: linear scan, `None` when no
entity matches. -/
def Company.get_employee_by_id (c : Company) (employee_id : Int) : Option Entity :=
  findById c.employees employee_id

/-- `Company.calculate_total_salary()`: starts `total_salary = 0` and adds
`employee.salary` for every entity in the list, in order. -/
def Company.calculate_total_salary (c : Company) : ℚ :=
  c.employees.foldl (fun total_salary e => total_salary + e.salary) 0

/-- One method call on an entity, for stating that no operation changes
the id: the raise methods (with either arity), the Manager list methods,
and `display_details` (which only writes to stdout, mutating no field). -/
inductive EOp : Type where
  | give_raise (amount : ℚ)
  | manager_give_raise (amount : ℚ) (include_reports : Bool)
  | add_employee (e : Entity)
  | remove_employee (e : Entity)
  | display_details

/-- Apply one method call to an entity. -/
def EOp.apply (e : Entity) : EOp → Entity
  | .give_raise a => e.give_raise a
  | .manager_give_raise a incl => Manager.give_raise e a incl
  | .add_employee x => Manager.add_employee e x
  | .remove_employee x => Manager.remove_employee e x
  | .display_details => e

/-- Apply a sequence of method calls, left to right. -/
def applyOps (e : Entity) (ops : List EOp) : Entity :=
  ops.foldl EOp.apply e

/-- A world holding both collections of the program at once: a `Company`
(its `employees` list) and a `Manager` entity (its report list), possibly
referencing the same entities. -/
structure OfficeState : Type where
  company : Company
  manager : Entity

/-- `manager.add_employee(e)` executed in the world. -/
def OfficeState.manager_add (st : OfficeState) (e : Entity) : OfficeState :=
  { st with manager := Manager.add_employee st.manager e }

/-- `manager.remove_employee(e)` executed in the world. -/
def OfficeState.manager_remove (st : OfficeState) (e : Entity) : OfficeState :=
  { st with manager := Manager.remove_employee st.manager e }

/-- `company.add_employee(e)` executed in the world. -/
def OfficeState.company_add (st : OfficeState) (e : Entity) : OfficeState :=
  { st with company := st.company.add_employee e }

/-- `company.remove_employee(e)` executed in the world. -/
def OfficeState.company_remove (st : OfficeState) (e : Entity) : OfficeState :=
  { st with company := st.company.remove_employee e }

/-! ## Helper lemmas -/

mutual

/-- `Entity.beq` is reflexive. -/
theorem Entity.beq_refl : ∀ e : Entity, Entity.beq e e = true
  | .employee i n s => by simp [Entity.beq]
  | .manager i n s d l => by simp [Entity.beq, Entity.beqList_refl l]
  | .salesperson i n s c a => by simp [Entity.beq]

/-- `Entity.beqList` is reflexive. -/
theorem Entity.beqList_refl : ∀ l : List Entity, Entity.beqList l l = true
  | [] => by simp [Entity.beqList]
  | x :: xs => by
      simp [Entity.beqList, Entity.beq_refl x, Entity.beqList_refl xs]

end

theorem memB_append_self (l : List Entity) (e : Entity) :
    memB (l ++ [e]) e = true := by
  simp [memB, List.any_append, List.any_cons, Entity.beq_refl]

theorem removeFirst_of_all_false {l : List Entity} {e : Entity}
    (h : ∀ x ∈ l, Entity.beq x e = false) : removeFirst l e = l := by
  induction l with
  | nil => rfl
  | cons x xs ih =>
      have hx : Entity.beq x e = false := h x (List.mem_cons_self x xs)
      have ih' := ih fun y hy => h y (List.mem_cons_of_mem x hy)
      simp [removeFirst, hx, ih']

theorem removeFirst_append_self {l : List Entity} {e : Entity}
    (h : ∀ x ∈ l, Entity.beq x e = false) : removeFirst (l ++ [e]) e = l := by
  induction l with
  | nil => simp [removeFirst, Entity.beq_refl]
  | cons x xs ih =>
      have hx : Entity.beq x e = false := h x (List.mem_cons_self x xs)
      have ih' := ih fun y hy => h y (List.mem_cons_of_mem x hy)
      simp [removeFirst, hx, ih']

theorem removeFirst_mem_spec {l : List Entity} {e : Entity}
    (h : memB l e = true) :
    ∃ pre x post, l = pre ++ x :: post ∧ Entity.beq x e = true ∧
      (∀ y ∈ pre, Entity.beq y e = false) ∧
      removeFirst l e = pre ++ post := by
  induction l with
  | nil => simp [memB] at h
  | cons x xs ih =>
      by_cases hx : Entity.beq x e = true
      · exact ⟨[], x, xs, by simp, hx, by simp, by simp [removeFirst, hx]⟩
      · have hx' : Entity.beq x e = false := by
          cases hb : Entity.beq x e
          · rfl
          · exact absurd hb hx
        have hxs : memB xs e = true := by
          simp [memB, List.any_cons, hx'] at h ⊢
          simpa [memB] using h
        obtain ⟨pre, y, post, hl, hy, hpre, hr⟩ := ih hxs
        refine ⟨x :: pre, y, post, by simp [hl], hy, ?_, ?_⟩
        · intro z hz
          rcases List.mem_cons.mp hz with hz | hz
          · simpa [hz] using hx'
          · exact hpre z hz
        · simp [removeFirst, hx', hr]

theorem countB_zero_iff (l : List Entity) (e : Entity) :
    countB l e = 0 ↔ ∀ x ∈ l, Entity.beq x e = false := by
  simp only [countB, List.length_eq_zero, List.filter_eq_nil_iff]
  constructor
  · intro h x hx
    cases hb : Entity.beq x e
    · rfl
    · exact absurd hb (by simpa using h x hx)
  · intro h x hx
    simp [h x hx]

theorem countB_append_self (l : List Entity) (e : Entity) :
    countB (l ++ [e]) e = countB l e + 1 := by
  simp [countB, List.filter_append, Entity.beq_refl]

theorem foldl_add_salary (l : List Entity) (acc : ℚ) :
    l.foldl (fun total_salary e => total_salary + e.salary) acc =
      acc + (l.map Entity.salary).sum := by
  induction l generalizing acc with
  | nil => simp
  | cons x xs ih => simp [List.foldl_cons, ih, add_assoc]

theorem findById_eq_none (l : List Entity) (i : Int) :
    findById l i = none ↔ ∀ e ∈ l, e.get_employee_id ≠ i := by
  induction l with
  | nil => simp [findById]
  | cons x xs ih =>
      by_cases hx : x.get_employee_id = i
      · simp [findById, hx]
      · simp [findById, hx, ih]

theorem findById_eq_some {l : List Entity} {i : Int} {e : Entity}
    (h : findById l i = some e) :
    e.get_employee_id = i ∧
      ∃ pre post, l = pre ++ e :: post ∧
        ∀ x ∈ pre, x.get_employee_id ≠ i := by
  induction l with
  | nil => simp [findById] at h
  | cons x xs ih =>
      by_cases hx : x.get_employee_id = i
      · simp only [findById, if_pos hx, Option.some.injEq] at h
        exact ⟨h ▸ hx, [], xs, by simp [h], by simp⟩
      · simp only [findById, if_neg hx] at h
        obtain ⟨hid, pre, post, hl, hpre⟩ := ih h
        refine ⟨hid, x :: pre, post, by simp [hl], ?_⟩
        intro z hz
        rcases List.mem_cons.mp hz with hz | hz
        · simpa [hz] using hx
        · exact hpre z hz

theorem Entity.get_employee_id_give_raise (e : Entity) (a : ℚ) :
    (e.give_raise a).get_employee_id = e.get_employee_id := by
  cases e <;> simp only [Entity.give_raise] <;> split <;> rfl

theorem EOp.apply_get_employee_id (e : Entity) (op : EOp) :
    (EOp.apply e op).get_employee_id = e.get_employee_id := by
  cases op with
  | give_raise a =>
      exact Entity.get_employee_id_give_raise e a
  | manager_give_raise a incl =>
      cases e with
      | manager i n s d reps => rfl
      | employee i n s =>
          exact Entity.get_employee_id_give_raise (.employee i n s) a
      | salesperson i n s cr sa =>
          exact Entity.get_employee_id_give_raise (.salesperson i n s cr sa) a
  | add_employee x =>
      cases e <;> rfl
  | remove_employee x =>
      cases e with
      | manager i n s d reps =>
          simp only [EOp.apply, Manager.remove_employee]
          split <;> rfl
      | employee i n s => rfl
      | salesperson i n s cr sa => rfl
  | display_details => rfl

theorem applyOps_get_employee_id (ops : List EOp) (e : Entity) :
    (applyOps e ops).get_employee_id = e.get_employee_id := by
  induction ops generalizing e with
  | nil => rfl
  | cons op ops ih =>
      simp only [applyOps, List.foldl_cons]
      rw [show (List.foldl EOp.apply (EOp.apply e op) ops) =
          applyOps (EOp.apply e op) ops from rfl]
      rw [ih, EOp.apply_get_employee_id]

/-! ## Claim theorems -/

/-- Claim C1: for every entity (Employee, Manager and SalesPerson all use
the base salary rule) and every amount, `give_raise(amount)` adds exactly
`amount` to `salary` when `amount > 0` and leaves `salary` unchanged when
`amount ≤ 0`; the method is total, so it never fails. -/
theorem give_raise_salary_rule (e : Entity) (amount : ℚ) :
    (e.give_raise amount).salary =
      if amount > 0 then e.salary + amount else e.salary := by
  cases e <;> simp only [Entity.give_raise] <;> split <;>
    simp_all [Entity.salary]

/-- Claim C2: `get_employee_id()` returns the id passed at construction,
for all three constructors, and no method call (raise with either arity,
report add/remove, display) ever changes it, hence neither does any
sequence of such calls. -/
theorem employee_id_constant :
    (∀ (i : Int) (n : String) (s : ℚ),
      (Employee.init i n s).get_employee_id = i) ∧
    (∀ (i : Int) (n : String) (s : ℚ) (d : String),
      (Manager.init i n s d).get_employee_id = i) ∧
    (∀ (i : Int) (n : String) (s cr : ℚ),
      (SalesPerson.init i n s cr).get_employee_id = i) ∧
    (∀ (e : Entity) (ops : List EOp),
      (applyOps e ops).get_employee_id = e.get_employee_id) :=
  ⟨fun _ _ _ => rfl, fun _ _ _ _ => rfl, fun _ _ _ _ => rfl,
   fun e ops => applyOps_get_employee_id ops e⟩

/-- Claim C3: `SalesPerson.give_raise(amount)` applies the base salary
rule (add `amount` only when positive) and always, even for a rejected
amount, increases `commission_rate` by exactly `0.01`. -/
theorem salesperson_give_raise_rule (i : Int) (n : String)
    (s cr sa amount : ℚ) :
    (Entity.salesperson i n s cr sa).give_raise amount =
      Entity.salesperson i n (if amount > 0 then s + amount else s)
        (cr + 0.01) sa :=
  rfl

/-- Claim C4: adding an entity to a manager's reports and then removing
the same entity restores the report list, provided the entity occurs
exactly once in the list after the add. -/
theorem manager_add_remove_roundtrip (i : Int) (n : String) (s : ℚ)
    (d : String) (reps : List Entity) (e : Entity)
    (h : countB (reps ++ [e]) e = 1) :
    Manager.remove_employee (Manager.add_employee (.manager i n s d reps) e)
        e = .manager i n s d reps := by
  have h0 : countB reps e = 0 := by
    have := countB_append_self reps e
    omega
  have hall : ∀ x ∈ reps, Entity.beq x e = false :=
    (countB_zero_iff reps e).mp h0
  simp only [Manager.add_employee, Manager.remove_employee,
    memB_append_self, if_pos]
  rw [removeFirst_append_self hall]

/-- Witness for C4 at a concrete manager and entity. -/
theorem manager_add_remove_roundtrip_witness :
    countB ([Entity.employee 101 "Alice" 50000] ++
        [Entity.employee 102 "Bob" 60000]) (.employee 102 "Bob" 60000) = 1 ∧
    Manager.remove_employee
        (Manager.add_employee
          (.manager 201 "Charlie" 80000 "Sales"
            [.employee 101 "Alice" 50000])
          (.employee 102 "Bob" 60000))
        (.employee 102 "Bob" 60000) =
      .manager 201 "Charlie" 80000 "Sales" [.employee 101 "Alice" 50000] :=
  ⟨by decide,
   manager_add_remove_roundtrip 201 "Charlie" 80000 "Sales"
     [.employee 101 "Alice" 50000] (.employee 102 "Bob" 60000) (by decide)⟩

/-- Claim C5: `calculate_total_salary()` is exactly the sum of the
`salary` fields of the entities in the list, and commission data
(`commission_rate`, `sales_achieved`) does not enter the total. -/
theorem total_salary_eq_sum :
    (∀ c : Company,
      c.calculate_total_salary = (c.employees.map Entity.salary).sum) ∧
    (∀ (nm : String) (l : List Entity) (i : Int) (n : String)
        (s cr sa cr' sa' : ℚ),
      Company.calculate_total_salary ⟨nm, l ++ [.salesperson i n s cr sa]⟩ =
        Company.calculate_total_salary
          ⟨nm, l ++ [.salesperson i n s cr' sa']⟩) := by
  have hsum : ∀ c : Company,
      c.calculate_total_salary = (c.employees.map Entity.salary).sum := by
    intro c
    simpa using foldl_add_salary c.employees 0
  refine ⟨hsum, fun nm l i n s cr sa cr' sa' => ?_⟩
  simp only [hsum]
  simp [Entity.salary]

/-- Claim C6: `get_employee_by_id(id)` returns `None` exactly when no
entity in the list has that id; a `Some` result is the first entity in
list order with that id; and when exactly one entity matches, it is
returned. -/
theorem get_employee_by_id_spec (c : Company) (i : Int) :
    (c.get_employee_by_id i = none ↔
      ∀ e ∈ c.employees, e.get_employee_id ≠ i) ∧
    (∀ e, c.get_employee_by_id i = some e →
      e.get_employee_id = i ∧
        ∃ pre post, c.employees = pre ++ e :: post ∧
          ∀ x ∈ pre, x.get_employee_id ≠ i) ∧
    (∀ e, e ∈ c.employees → e.get_employee_id = i →
      (∀ x ∈ c.employees, x.get_employee_id = i → x = e) →
      c.get_employee_by_id i = some e) := by
  refine ⟨findById_eq_none c.employees i,
    fun e h => findById_eq_some h, fun e he hei huniq => ?_⟩
  cases hf : c.get_employee_by_id i with
  | none =>
      exact absurd hei ((findById_eq_none c.employees i).mp hf e he)
  | some y =>
      obtain ⟨hyi, pre, post, hl, -⟩ := findById_eq_some hf
      have hy : y ∈ c.employees := by
        rw [show c.employees = pre ++ y :: post from hl]
        simp
      rw [huniq y hy hyi]

/-- Witness for C6 at a concrete company: a unique match is found, and an
absent id yields `none`. -/
theorem get_employee_by_id_spec_witness :
    (Company.mk "Acme"
        [.employee 101 "Alice" 50000,
         .employee 102 "Bob" 60000]).get_employee_by_id 102 =
      some (.employee 102 "Bob" 60000) ∧
    (Company.mk "Acme"
        [.employee 101 "Alice" 50000,
         .employee 102 "Bob" 60000]).get_employee_by_id 999 = none := by
  constructor
  · refine (get_employee_by_id_spec _ 102).2.2 _ (by simp) rfl ?_
    intro x hx hid
    rcases List.mem_cons.mp hx with h | h
    · subst h
      exact absurd hid (by decide)
    · rcases List.mem_cons.mp h with h' | h'
      · exact h'
      · simp at h'
  · exact (get_employee_by_id_spec _ 999).1.mpr (by decide)

/-- Claim C7: `Manager.give_raise(amount, include_reports=True)` with a
positive amount raises the manager's own salary by `amount` and applies
each report's own `give_raise` override to it; on the concrete scenario
(Charlie with reports Alice and SalesPerson David, amount 10000) the
salaries become 90000, 60000, 50000 and David's rate 0.11. -/
theorem manager_raise_include_reports :
    (∀ (i : Int) (n : String) (s : ℚ) (d : String) (reps : List Entity)
        (amount : ℚ), amount > 0 →
      Manager.give_raise (.manager i n s d reps) amount true =
        .manager i n (s + amount) d
          (reps.map (fun r => r.give_raise amount))) ∧
    Manager.give_raise
        (.manager 201 "Charlie" 80000 "Sales"
          [Employee.init 101 "Alice" 50000,
           SalesPerson.init 301 "David" 40000 0.10])
        10000 true =
      .manager 201 "Charlie" 90000 "Sales"
        [.employee 101 "Alice" 60000,
         .salesperson 301 "David" 50000 0.11 0] := by
  constructor
  · intro i n s d reps amount h
    simp [Manager.give_raise, if_pos h]
  · simp only [Manager.give_raise, Entity.give_raise, Employee.init,
      SalesPerson.init, List.map_cons, List.map_nil]
    norm_num

/-- Witness for C7: the general part applied to a concrete manager with
an empty report list and amount 2. -/
theorem manager_raise_include_reports_witness :
    Manager.give_raise (.manager 1 "m" 10 "d" []) 2 true =
      .manager 1 "m" (10 + 2) "d"
        (([] : List Entity).map (fun r => r.give_raise 2)) :=
  manager_raise_include_reports.1 1 "m" 10 "d" [] 2 (by norm_num)

/-- Claim C8: for both a manager's report list and a company's employee
list, removing an absent entity is a no-op (only a message is printed),
and removing a present entity removes exactly the first `==`-equal
entry. -/
theorem remove_employee_spec (i : Int) (n : String) (s : ℚ) (d : String)
    (reps : List Entity) (c : Company) (e : Entity) :
    (memB reps e = false →
      Manager.remove_employee (.manager i n s d reps) e =
        .manager i n s d reps) ∧
    (memB c.employees e = false → c.remove_employee e = c) ∧
    (memB reps e = true →
      ∃ pre x post, reps = pre ++ x :: post ∧ Entity.beq x e = true ∧
        (∀ y ∈ pre, Entity.beq y e = false) ∧
        Manager.remove_employee (.manager i n s d reps) e =
          .manager i n s d (pre ++ post)) ∧
    (memB c.employees e = true →
      ∃ pre x post, c.employees = pre ++ x :: post ∧
        Entity.beq x e = true ∧
        (∀ y ∈ pre, Entity.beq y e = false) ∧
        (c.remove_employee e).employees = pre ++ post) := by
  refine ⟨fun h => ?_, fun h => ?_, fun h => ?_, fun h => ?_⟩
  · simp [Manager.remove_employee, h]
  · simp [Company.remove_employee, h]
  · obtain ⟨pre, x, post, hl, hx, hpre, hr⟩ := removeFirst_mem_spec h
    exact ⟨pre, x, post, hl, hx, hpre, by
      simp [Manager.remove_employee, h, hr]⟩
  · obtain ⟨pre, x, post, hl, hx, hpre, hr⟩ := removeFirst_mem_spec h
    exact ⟨pre, x, post, hl, hx, hpre, by
      simp [Company.remove_employee, h, hr]⟩

/-- Witness for C8: no-op on an absent entity and first-entry removal on
a present one, for both collections, at concrete values. -/
theorem remove_employee_spec_witness :
    (memB [Entity.employee 2 "b" 1] (.employee 3 "c" 1) = false) ∧
    Manager.remove_employee (.manager 1 "m" 0 "d" [.employee 2 "b" 1])
        (.employee 3 "c" 1) = .manager 1 "m" 0 "d" [.employee 2 "b" 1] ∧
    Company.remove_employee ⟨"C", [.employee 2 "b" 1]⟩ (.employee 3 "c" 1) =
      ⟨"C", [.employee 2 "b" 1]⟩ ∧
    (memB [Entity.employee 2 "b" 1] (.employee 2 "b" 1) = true) ∧
    (∃ pre x post,
      [Entity.employee 2 "b" 1] = pre ++ x :: post ∧
      Entity.beq x (.employee 2 "b" 1) = true ∧
      (∀ y ∈ pre, Entity.beq y (.employee 2 "b" 1) = false) ∧
      Manager.remove_employee (.manager 1 "m" 0 "d" [.employee 2 "b" 1])
          (.employee 2 "b" 1) = .manager 1 "m" 0 "d" (pre ++ post)) :=
  ⟨by decide,
   (remove_employee_spec 1 "m" 0 "d" [.employee 2 "b" 1]
     ⟨"C", [.employee 2 "b" 1]⟩ (.employee 3 "c" 1)).1 (by decide),
   (remove_employee_spec 1 "m" 0 "d" [.employee 2 "b" 1]
     ⟨"C", [.employee 2 "b" 1]⟩ (.employee 3 "c" 1)).2.1 (by decide),
   by decide,
   (remove_employee_spec 1 "m" 0 "d" [.employee 2 "b" 1]
     ⟨"C", [.employee 2 "b" 1]⟩ (.employee 2 "b" 1)).2.2.1 (by decide)⟩

/-- Claim C9: the manager's report list and the company's employee list
are independent: a manager-side add/remove leaves the company collection
unchanged, and a company-side add/remove leaves the manager (hence its
report list) unchanged, in any world where both exist, including worlds
where the two collections hold the same entities. -/
theorem collections_independent (st : OfficeState) (e : Entity) :
    (st.manager_add e).company = st.company ∧
    (st.manager_remove e).company = st.company ∧
    (st.company_add e).manager = st.manager ∧
    (st.company_remove e).manager = st.manager :=
  ⟨rfl, rfl, rfl, rfl⟩

/-- Claim C10: `Company.add_employee` has no duplicate check: adding an
entity already present appends a second occurrence, and
`calculate_total_salary()` then counts that entity's salary once per
occurrence (the total grows by its salary again). -/
theorem company_add_duplicate (c : Company) (e : Entity)
    (h : memB c.employees e = true) :
    (c.add_employee e).employees = c.employees ++ [e] ∧
    countB (c.add_employee e).employees e = countB c.employees e + 1 ∧
    (c.add_employee e).calculate_total_salary =
      c.calculate_total_salary + e.salary := by
  refine ⟨rfl, countB_append_self c.employees e, ?_⟩
  simp only [Company.add_employee, Company.calculate_total_salary]
  rw [foldl_add_salary, foldl_add_salary]
  simp

/-- Witness for C10 at a concrete company already containing the added
employee. -/
theorem company_add_duplicate_witness :
    memB [Entity.employee 2 "b" 7] (.employee 2 "b" 7) = true ∧
    ((Company.mk "C" [.employee 2 "b" 7]).add_employee
        (.employee 2 "b" 7)).employees =
      [Entity.employee 2 "b" 7] ++ [Entity.employee 2 "b" 7] ∧
    countB ((Company.mk "C" [.employee 2 "b" 7]).add_employee
        (.employee 2 "b" 7)).employees (.employee 2 "b" 7) =
      countB [Entity.employee 2 "b" 7] (.employee 2 "b" 7) + 1 ∧
    ((Company.mk "C" [.employee 2 "b" 7]).add_employee
        (.employee 2 "b" 7)).calculate_total_salary =
      (Company.mk "C" [.employee 2 "b" 7]).calculate_total_salary +
        (Entity.employee 2 "b" 7).salary := by
  have h := company_add_duplicate (Company.mk "C" [.employee 2 "b" 7])
    (.employee 2 "b" 7) (by decide)
  exact ⟨by decide, h.1, h.2.1, h.2.2⟩

end PyOOP
